import Mathlib

/-!
Verification development for the LogViper log-synchronization engine
(`logviper.py`).  The Python source is shallowly embedded:

* strings are processed as `List Char` (`String.data`); the regular
  expressions of `TS_PATTERNS` are each compiled by hand into a concrete
  leftmost-match search function with the same greedy semantics (Python
  `re` is Unicode-aware; log timestamps are ASCII, so the character
  classes are modelled over ASCII, which is what every pattern in the
  source can match anyway);
* `datetime.strptime` / `datetime.timestamp()` are modelled exactly on the
  shapes the paired regexes can produce, at microsecond granularity:
  a timestamp is an integer count of microseconds since the epoch
  (`float` rounding of the Python runtime is abstracted away — the
  source only ever compares timestamps with each other, never with an
  external ground truth; `datetime.timestamp()` interprets the naive
  datetime in the host timezone, modelled here with a zero offset, which
  likewise only shifts every extracted value uniformly);
* the filesystem is an association list from path to `Option` content
  (`none` = the file exists in the directory listing but cannot be
  opened); file content is modelled at line granularity, i.e. the result
  of `open(...).readlines()` with the trailing newlines stripped, exactly
  how `read_log_file_chain` consumes it;
* `datetime.now().year`, which the Python code reads from the ambient
  wall clock inside `extract_timestamp`, is made an explicit parameter
  `year` so that the dependence on it can be analysed.
-/

namespace LogViper

/-! ### Character helpers (ASCII models of the `re` character classes) -/

/-- Model of the regex word-character class `\w` used by `\b`. -/
def isWordChar (c : Char) : Bool := c.isAlphanum || c == '_'

/-- Numeric value of a decimal digit character. -/
def digitVal (c : Char) : Nat := c.toNat - '0'.toNat

/-- Numeric value of a list of decimal digit characters. -/
def digitsVal (ds : List Char) : Nat := ds.foldl (fun a c => a * 10 + digitVal c) 0

/-! ### Tiny scanners used to compile the nine `TS_PATTERNS` regexes -/

/-- Consume exactly `n` decimal digits. -/
def eatDigits : Nat → List Char → Option (List Char)
  | 0, cs => some cs
  | _ + 1, [] => none
  | n + 1, c :: cs => if c.isDigit then eatDigits n cs else none

/-- Consume a maximal nonempty run of decimal digits (greedy `\d+`). -/
def eatDigits1 (cs : List Char) : Option (List Char) :=
  match cs with
  | c :: _ => if c.isDigit then some (cs.dropWhile Char.isDigit) else none
  | [] => none

/-- Consume one specific character. -/
def eatChar (x : Char) : List Char → Option (List Char)
  | c :: cs => if c == x then some cs else none
  | [] => none

/-- Consume one character drawn from a set (e.g. the class `[T ]`). -/
def eatOneOf (xs : List Char) : List Char → Option (List Char)
  | c :: cs => if xs.contains c then some cs else none
  | [] => none

/-- Consume a maximal nonempty run of spaces (greedy `␣+`). -/
def eatSpaces1 : List Char → Option (List Char)
  | c :: cs => if c == ' ' then some (cs.dropWhile (fun d => d == ' ')) else none
  | [] => none

/-- Consume one uppercase ASCII letter (`[A-Z]`). -/
def eatUpper : List Char → Option (List Char)
  | c :: cs => if 'A' ≤ c && c ≤ 'Z' then some cs else none
  | [] => none

/-- Consume one lowercase ASCII letter (`[a-z]`). -/
def eatLower : List Char → Option (List Char)
  | c :: cs => if 'a' ≤ c && c ≤ 'z' then some cs else none
  | [] => none

/-- Does the remaining input start at a word boundary (for a trailing `\b`
after a word character)? -/
def boundaryOk : List Char → Bool
  | [] => true
  | c :: _ => !isWordChar c

/-- The capture of a match that consumed the input down to `rest`. -/
def capOf (cs rest : List Char) : List Char := cs.take (cs.length - rest.length)

/-! ### The nine anchored matchers, in `TS_PATTERNS` order

Each function tries to match its regex at the start of the input
(the leading `\b` is handled by the search driver) and returns the text
of capture group 1. -/

/-- `\b(\d{4}-\d{2}-\d{2}[T ]\d{2}:\d{2}:\d{2}[.,]\d+)` anchored at the start. -/
def matchYmdHmsF (cs : List Char) : Option (List Char) := do
  let r ← eatDigits 4 cs
  let r ← eatChar '-' r
  let r ← eatDigits 2 r
  let r ← eatChar '-' r
  let r ← eatDigits 2 r
  let r ← eatOneOf ['T', ' '] r
  let r ← eatDigits 2 r
  let r ← eatChar ':' r
  let r ← eatDigits 2 r
  let r ← eatChar ':' r
  let r ← eatDigits 2 r
  let r ← eatOneOf ['.', ','] r
  let r ← eatDigits1 r
  some (capOf cs r)

/-- `\b(\d{4}-\d{2}-\d{2}[T ]\d{2}:\d{2}:\d{2})` anchored at the start. -/
def matchYmdHms (cs : List Char) : Option (List Char) := do
  let r ← eatDigits 4 cs
  let r ← eatChar '-' r
  let r ← eatDigits 2 r
  let r ← eatChar '-' r
  let r ← eatDigits 2 r
  let r ← eatOneOf ['T', ' '] r
  let r ← eatDigits 2 r
  let r ← eatChar ':' r
  let r ← eatDigits 2 r
  let r ← eatChar ':' r
  let r ← eatDigits 2 r
  some (capOf cs r)

/-- `\b(\d{2}-\d{2} \d{2}:\d{2}:\d{2}\.\d+)` anchored at the start. -/
def matchMdHmsF (cs : List Char) : Option (List Char) := do
  let r ← eatDigits 2 cs
  let r ← eatChar '-' r
  let r ← eatDigits 2 r
  let r ← eatChar ' ' r
  let r ← eatDigits 2 r
  let r ← eatChar ':' r
  let r ← eatDigits 2 r
  let r ← eatChar ':' r
  let r ← eatDigits 2 r
  let r ← eatChar '.' r
  let r ← eatDigits1 r
  some (capOf cs r)

/-- Tail `\d{2}:\d{2}:\d{2}` shared by the day-of-month alternatives below. -/
def matchHmsTail (r : List Char) : Option (List Char) := do
  let r ← eatDigits 2 r
  let r ← eatChar ':' r
  let r ← eatDigits 2 r
  let r ← eatChar ':' r
  let r ← eatDigits 2 r
  some r

/-- `\b([A-Z][a-z]{2} +\d{1,2} \d{2}:\d{2}:\d{2})` anchored at the start.
The greedy `\d{1,2}` is realised by trying the two-digit alternative
before the one-digit alternative, exactly the backtracking order of the
regex engine. -/
def matchBDHms (cs : List Char) : Option (List Char) := do
  let r ← eatUpper cs
  let r ← eatLower r
  let r ← eatLower r
  let r ← eatSpaces1 r
  let r ← (do
      let r2 ← eatDigits 2 r
      let r2 ← eatChar ' ' r2
      matchHmsTail r2) <|> (do
      let r1 ← eatDigits 1 r
      let r1 ← eatChar ' ' r1
      matchHmsTail r1)
  some (capOf cs r)

/-- `\b(\d{2}/[A-Z][a-z]{2}/\d{4}:\d{2}:\d{2}:\d{2})` anchored at the start. -/
def matchDbYHms (cs : List Char) : Option (List Char) := do
  let r ← eatDigits 2 cs
  let r ← eatChar '/' r
  let r ← eatUpper r
  let r ← eatLower r
  let r ← eatLower r
  let r ← eatChar '/' r
  let r ← eatDigits 4 r
  let r ← eatChar ':' r
  let r ← eatDigits 2 r
  let r ← eatChar ':' r
  let r ← eatDigits 2 r
  let r ← eatChar ':' r
  let r ← eatDigits 2 r
  some (capOf cs r)

/-- `\b(\d{2}:\d{2}:\d{2}\.\d+)` anchored at the start. -/
def matchHmsF (cs : List Char) : Option (List Char) := do
  let r ← eatDigits 2 cs
  let r ← eatChar ':' r
  let r ← eatDigits 2 r
  let r ← eatChar ':' r
  let r ← eatDigits 2 r
  let r ← eatChar '.' r
  let r ← eatDigits1 r
  some (capOf cs r)

/-- `\b(\d{2}:\d{2}:\d{2})` anchored at the start. -/
def matchHms (cs : List Char) : Option (List Char) := do
  let r ← matchHmsTail cs
  some (capOf cs r)

/-- `\b(\d{n})\b` anchored at the start (used with n = 13 and n = 10). -/
def matchEpoch (n : Nat) (cs : List Char) : Option (List Char) := do
  let r ← eatDigits n cs
  if boundaryOk r then some (capOf cs r) else none

/-! ### The search driver: Python `pattern.search(line)`

`re` returns the leftmost match.  Every pattern above begins with `\b`
followed by a word character (a digit or an uppercase letter), so the
boundary holds at a position exactly when the previous character is
absent or is not a word character; at positions where the current
character is not a word character the anchored matcher fails by itself,
so skipping only positions preceded by a word character is equivalent. -/

/-- Scan for the leftmost match of `m`, tracking the previous character
for the leading word boundary. -/
def reSearchGo (m : List Char → Option (List Char)) :
    Option Char → List Char → Option (List Char)
  | _, [] => none
  | prev, c :: rest =>
    if (match prev with | none => true | some p => !isWordChar p) then
      match m (c :: rest) with
      | some cap => some cap
      | none => reSearchGo m (some c) rest
    else reSearchGo m (some c) rest

/-- Model of `pattern.search(line)` for the `TS_PATTERNS` regexes:
returns the text of capture group 1 of the leftmost match. -/
def reSearch (m : List Char → Option (List Char)) (cs : List Char) :
    Option (List Char) := reSearchGo m none cs

/-! ### Proleptic Gregorian calendar (the arithmetic behind
`datetime.toordinal` / `datetime.timestamp`) -/

/-- Gregorian leap-year rule. -/
def isLeap (y : Nat) : Bool := y % 4 == 0 && (y % 100 != 0 || y % 400 == 0)

/-- Length of a month. -/
def daysInMonth (y : Nat) : Nat → Nat
  | 2 => if isLeap y then 29 else 28
  | 4 => 30
  | 6 => 30
  | 9 => 30
  | 11 => 30
  | _ => 31

/-- Days before the first of the month within a year. -/
def daysBeforeMonth (leap : Bool) (mo : Nat) : Nat :=
  (match mo with
   | 1 => 0 | 2 => 31 | 3 => 59 | 4 => 90 | 5 => 120 | 6 => 151
   | 7 => 181 | 8 => 212 | 9 => 243 | 10 => 273 | 11 => 304 | _ => 334)
  + (if leap && decide (3 ≤ mo) then 1 else 0)

/-- Proleptic Gregorian ordinal of a date, with day 1 = 0001-01-01,
as computed by `datetime.date.toordinal`. -/
def toOrdinal (y mo d : Nat) : Nat :=
  (y - 1) * 365 + (y - 1) / 4 - (y - 1) / 100 + (y - 1) / 400
    + daysBeforeMonth (isLeap y) mo + d

/-- A validated naive datetime, microsecond precision
(the value `datetime.strptime` produces). -/
structure DT where
  y : Nat
  mo : Nat
  d : Nat
  h : Nat
  mi : Nat
  s : Nat
  us : Nat
deriving DecidableEq, Repr

/-- Construct a datetime, enforcing exactly the validations that make
`datetime.strptime` / the `datetime` constructor raise `ValueError`
(`MINYEAR = 1`, `MAXYEAR = 9999`, calendar-valid day, second at most 59). -/
def mkDT (y mo d h mi s us : Nat) : Option DT :=
  if 1 ≤ y && y ≤ 9999 && 1 ≤ mo && mo ≤ 12 && 1 ≤ d && d ≤ daysInMonth y mo
      && h ≤ 23 && mi ≤ 59 && s ≤ 59 && us ≤ 999999 then
    some ⟨y, mo, d, h, mi, s, us⟩
  else none

/-- Model of `dt.replace(year=year)`: the new date is re-validated. -/
def replaceYear (year : Nat) (dt : DT) : Option DT :=
  if 1 ≤ year && year ≤ 9999 && dt.d ≤ daysInMonth year dt.mo then
    some ⟨year, dt.mo, dt.d, dt.h, dt.mi, dt.s, dt.us⟩
  else none

/-- Ordinal of 1970-01-01, the epoch (`date(1970, 1, 1).toordinal()`). -/
def epochOrdinal : Nat := 719163

/-- Model of `dt.timestamp()`, in integer microseconds since the epoch
(a zero UTC offset stands in for the host timezone; see the header). -/
def dtTimestampMicro (dt : DT) : Int :=
  (((toOrdinal dt.y dt.mo dt.d : Int) - (epochOrdinal : Int)) * 86400
      + dt.h * 3600 + dt.mi * 60 + dt.s) * 1000000 + dt.us

/-! ### `strptime` models, one per format string of `TS_PATTERNS`

Each is applied by `extract_timestamp` only to the text captured by the
paired regex (with `'T'` already replaced by a space, as the source does
for every non-epoch format).  They demand that the whole input is
consumed, mirroring the "unconverted data remains" failure of
`strptime`, and return `none` wherever `strptime` or the `datetime`
constructor would raise `ValueError`. -/

/-- Parse exactly `n` digits into a number. -/
def parseN (n : Nat) (cs : List Char) : Option (Nat × List Char) :=
  let pre := cs.take n
  if pre.length == n && pre.all Char.isDigit then some (digitsVal pre, cs.drop n)
  else none

/-- Parse `%d`-style one-or-two digits (the captures only ever carry a
digit run of length 1 or 2 at this slot). -/
def parse1or2 (cs : List Char) : Option (Nat × List Char) :=
  let run := cs.takeWhile Char.isDigit
  if run.length == 1 || run.length == 2 then
    some (digitsVal run, cs.dropWhile Char.isDigit)
  else none

/-- Consume the `\s+` that a whitespace character of a format string is
compiled to by `strptime`. -/
def eatWs1 (cs : List Char) : Option (List Char) :=
  match cs with
  | c :: _ => if c == ' ' then some (cs.dropWhile (fun d => d == ' ')) else none
  | [] => none

/-- Parse `%H:%M:%S` with its range checks. -/
def parseHMS (cs : List Char) : Option (Nat × Nat × Nat × List Char) := do
  let (h, r) ← parseN 2 cs
  let r ← eatChar ':' r
  let (mi, r) ← parseN 2 r
  let r ← eatChar ':' r
  let (s, r) ← parseN 2 r
  if h ≤ 23 && mi ≤ 59 && s ≤ 59 then some (h, mi, s, r) else none

/-- Parse a trailing `%f`: one to six digits, scaled to microseconds. -/
def parseFracTail (cs : List Char) : Option Nat :=
  if 1 ≤ cs.length && cs.length ≤ 6 && cs.all Char.isDigit then
    some (digitsVal cs * 10 ^ (6 - cs.length))
  else none

/-- Parse a `%b` month abbreviation (case-insensitively, like `strptime`). -/
def monthAbbr (a b c : Char) : Option Nat :=
  match a.toLower, b.toLower, c.toLower with
  | 'j', 'a', 'n' => some 1
  | 'f', 'e', 'b' => some 2
  | 'm', 'a', 'r' => some 3
  | 'a', 'p', 'r' => some 4
  | 'm', 'a', 'y' => some 5
  | 'j', 'u', 'n' => some 6
  | 'j', 'u', 'l' => some 7
  | 'a', 'u', 'g' => some 8
  | 's', 'e', 'p' => some 9
  | 'o', 'c', 't' => some 10
  | 'n', 'o', 'v' => some 11
  | 'd', 'e', 'c' => some 12
  | _, _, _ => none

/-- `strptime` with format `"%Y-%m-%d %H:%M:%S.%f"`. -/
def strptimeYmdHmsF (cs : List Char) : Option DT := do
  let (y, r) ← parseN 4 cs
  let r ← eatChar '-' r
  let (mo, r) ← parseN 2 r
  let r ← eatChar '-' r
  let (d, r) ← parseN 2 r
  let r ← eatWs1 r
  let (h, mi, s, r) ← parseHMS r
  let r ← eatChar '.' r
  let us ← parseFracTail r
  mkDT y mo d h mi s us

/-- `strptime` with format `"%Y-%m-%d %H:%M:%S"`. -/
def strptimeYmdHms (cs : List Char) : Option DT := do
  let (y, r) ← parseN 4 cs
  let r ← eatChar '-' r
  let (mo, r) ← parseN 2 r
  let r ← eatChar '-' r
  let (d, r) ← parseN 2 r
  let r ← eatWs1 r
  let (h, mi, s, r) ← parseHMS r
  if r.isEmpty then mkDT y mo d h mi s 0 else none

/-- `strptime` with format `"%m-%d %H:%M:%S.%f"` (year defaults to 1900,
so the day is validated against the non-leap 1900 calendar). -/
def strptimeMdHmsF (cs : List Char) : Option DT := do
  let (mo, r) ← parseN 2 cs
  let r ← eatChar '-' r
  let (d, r) ← parseN 2 r
  let r ← eatWs1 r
  let (h, mi, s, r) ← parseHMS r
  let r ← eatChar '.' r
  let us ← parseFracTail r
  mkDT 1900 mo d h mi s us

/-- `strptime` with format `"%b %d %H:%M:%S"` (year defaults to 1900). -/
def strptimeBDHms (cs : List Char) : Option DT := do
  match cs with
  | a :: b :: c :: r0 => do
    let mo ← monthAbbr a b c
    let r ← eatWs1 r0
    let (d, r) ← parse1or2 r
    let r ← eatWs1 r
    let (h, mi, s, r) ← parseHMS r
    if r.isEmpty then mkDT 1900 mo d h mi s 0 else none
  | _ => none

/-- `strptime` with format `"%d/%b/%Y:%H:%M:%S"`. -/
def strptimeDbYHms (cs : List Char) : Option DT := do
  let (d, r) ← parse1or2 cs
  let r ← eatChar '/' r
  match r with
  | a :: b :: c :: r0 => do
    let mo ← monthAbbr a b c
    let r ← eatChar '/' r0
    let (y, r) ← parseN 4 r
    let r ← eatChar ':' r
    let (h, mi, s, r) ← parseHMS r
    if r.isEmpty then mkDT y mo d h mi s 0 else none
  | _ => none

/-- `strptime` with format `"%H:%M:%S.%f"` (date defaults to 1900-01-01). -/
def strptimeHmsF (cs : List Char) : Option DT := do
  let (h, mi, s, r) ← parseHMS cs
  let r ← eatChar '.' r
  let us ← parseFracTail r
  mkDT 1900 1 1 h mi s us

/-- `strptime` with format `"%H:%M:%S"` (date defaults to 1900-01-01). -/
def strptimeHms (cs : List Char) : Option DT := do
  let (h, mi, s, r) ← parseHMS cs
  if r.isEmpty then mkDT 1900 1 1 h mi s 0 else none

/-! ### `TS_PATTERNS` and `extract_timestamp` -/

/-- Tag for the format component of a `TS_PATTERNS` entry. -/
inductive TsFmt where
  | ymdHmsF | ymdHms | mdHmsF | bDHms | dbYHms | hmsF | hms | epochMs | epochS
deriving DecidableEq, Repr

/-- Does the format string contain `%Y` (or `%y`)?  Formats without a
year are re-dated to the current year by `extract_timestamp`. -/
def fmtHasYear : TsFmt → Bool
  | .ymdHmsF => true
  | .ymdHms => true
  | .dbYHms => true
  | _ => false

/-- Dispatch to the `strptime` model of a (non-epoch) format. -/
def strptimeOf : TsFmt → List Char → Option DT
  | .ymdHmsF => strptimeYmdHmsF
  | .ymdHms => strptimeYmdHms
  | .mdHmsF => strptimeMdHmsF
  | .bDHms => strptimeBDHms
  | .dbYHms => strptimeDbYHms
  | .hmsF => strptimeHmsF
  | .hms => strptimeHms
  | .epochMs => fun _ => none
  | .epochS => fun _ => none

/-- The body of the `try` block of `extract_timestamp` for one rule:
convert the captured text `cap` to a timestamp, `none` standing for a
raised `ValueError`.  `year` is the value of `datetime.now().year`. -/
def apply_fmt (year : Nat) (fmt : TsFmt) (cap : List Char) : Option Int :=
  match fmt with
  | .epochMs => some (digitsVal cap * 1000)
  | .epochS => some (digitsVal cap * 1000000)
  | f =>
    let s := cap.map (fun c => if c == 'T' then ' ' else c)
    match strptimeOf f s with
    | none => none
    | some dt =>
      if fmtHasYear f then some (dtTimestampMicro dt)
      else (replaceYear year dt).map dtTimestampMicro

/-- The ordered rule list of the source, each regex compiled to its
leftmost-match search function. -/
def TS_PATTERNS : List ((List Char → Option (List Char)) × TsFmt) :=
  [ (reSearch matchYmdHmsF, .ymdHmsF),
    (reSearch matchYmdHms, .ymdHms),
    (reSearch matchMdHmsF, .mdHmsF),
    (reSearch matchBDHms, .bDHms),
    (reSearch matchDbYHms, .dbYHms),
    (reSearch matchHmsF, .hmsF),
    (reSearch matchHms, .hms),
    (reSearch (matchEpoch 13), .epochMs),
    (reSearch (matchEpoch 10), .epochS) ]

/-- The `for pattern, fmt in TS_PATTERNS` loop: first rule whose regex
matches is tried; a parse failure (`ValueError`) falls through to the
next rule. -/
def extractGo (year : Nat) (cs : List Char) :
    List ((List Char → Option (List Char)) × TsFmt) → Option Int
  | [] => none
  | pf :: rest =>
    match pf.1 cs with
    | none => extractGo year cs rest
    | some cap =>
      match apply_fmt year pf.2 cap with
      | some v => some v
      | none => extractGo year cs rest

/-- Model of `extract_timestamp(line)`.  `year` is the ambient
`datetime.now().year` read inside the Python function. -/
def extract_timestamp (year : Nat) (line : String) : Option Int :=
  extractGo year line.data TS_PATTERNS

/-- First-success reading of the rule list, following the specification
text: the result is determined by the first rule, in priority order,
whose regex matches and whose matched substring parses. -/
def extract_spec_first_success (year : Nat) (line : String) : Option Int :=
  (TS_PATTERNS.filterMap (fun pf => (pf.1 line.data).bind (apply_fmt year pf.2))).head?

/-! ### Rollover chain resolution (`get_rollover_chain`)

The filesystem enters as the directory listing that `glob` would
enumerate: the list of existing sibling paths, in enumeration order.
`glob.escape(base) + "*"` keeps exactly the entries having `base` as a
string prefix. -/

/-- Is `s` one of the recognised log-like extensions, case-insensitively
(`(?:log|out|txt|err)` under `re.I`)? -/
def endsInLogExt (cs : List Char) : Bool :=
  let t := (cs.map Char.toLower).reverse
  match t with
  | a :: b :: c :: '.' :: _ =>
    (c == 'l' && b == 'o' && a == 'g') || (c == 'o' && b == 'u' && a == 't')
      || (c == 't' && b == 'x' && a == 't') || (c == 'e' && b == 'r' && a == 'r')
  | _ => false

/-- Split a trailing `.<digits>` suffix (nonempty, all digits, right
after the last dot): the tail that `(\.\d+)?$` can absorb. -/
def splitTrailingDotDigits (cs : List Char) : Option (List Char × List Char) :=
  let r := cs.reverse
  let ds := r.takeWhile Char.isDigit
  match r.dropWhile Char.isDigit with
  | '.' :: rest =>
    if ds.isEmpty then none else some (rest.reverse, ds.reverse)
  | _ => none

/-- The base path of `re.match(r'^(.*\.(?:log|out|txt|err))(\.\d+)?$', filepath, re.I)`:
strip a trailing `.<digits>` only when the remainder ends in a recognised
extension; a path that does not match at all is used as-is. -/
def rollover_base (filepath : String) : String :=
  match splitTrailingDotDigits filepath.data with
  | some (p, _) => if endsInLogExt p then String.mk p else filepath
  | none => filepath

/-- The rank group of `re.match(r'.*\.(\d+)$', f)`: the value of the
all-digit run after the last dot, when there is one. -/
def trailing_rank (f : String) : Option Nat :=
  match splitTrailingDotDigits f.data with
  | some (_, ds) => some (digitsVal ds)
  | none => none

/-- Stable insertion of a ranked file into a rank-descending list: the
new element goes before the first strictly smaller rank, after ties.
Together with `sortByRankDesc` this realises Python's stable
`files.sort(key=lambda x: -x[0])`. -/
def insertByRank (x : Nat × String) : List (Nat × String) → List (Nat × String)
  | [] => [x]
  | y :: ys => if y.1 ≤ x.1 then x :: y :: ys else y :: insertByRank x ys

/-- Stable sort by descending rank. -/
def sortByRankDesc : List (Nat × String) → List (Nat × String)
  | [] => []
  | x :: xs => insertByRank x (sortByRankDesc xs)

/-- The classification step of the `for f in glob.glob(...)` loop: the
base file gets rank 0, any other sibling ending in `.<digits>` gets the
digits as its rank, everything else is dropped. -/
def chainEntry (base f : String) : Option (Nat × String) :=
  if base.data.isPrefixOf f.data then
    if f = base then some ((0 : Nat), f)
    else
      match trailing_rank f with
      | some n => some (n, f)
      | none => none
  else none

/-- The rank a classified sibling carries (`0` for the base file). -/
def rank_of (base f : String) : Nat :=
  if f = base then 0 else (trailing_rank f).getD 0

/-- Model of `get_rollover_chain(filepath)` over a directory listing:
classify every sibling sharing the normalized base (`base = rollover_base
filepath`) as prefix, stably sort by descending rank, and drop the
ranks. -/
def get_rollover_chain (listing : List String) (filepath : String) : List String :=
  (sortByRankDesc
    (listing.filterMap (fun f => chainEntry (rollover_base filepath) f))).map
    (fun x => x.2)

/-! ### Reading the chain and the `LogPanel` state machine -/

/-- The filesystem: directory entries in enumeration order, each with
`some` content (the stripped lines `readlines` yields) or `none` when
opening the file raises `OSError`/`PermissionError`. -/
abbrev FS := List (String × Option (List String))

/-- The listing `glob` sees. -/
def fsListing (fs : FS) : List String := fs.map (fun e => e.1)

/-- The lines one iteration of the `for f in get_rollover_chain(...)`
loop contributes: the file lines on success, nothing when `open`
raises and the `except` arm passes. -/
def fragmentLines (fs : FS) (f : String) : List String :=
  match fs.lookup f with
  | some (some c) => c
  | _ => []

/-- Model of `read_log_file_chain(filepath)`: concatenate every
fragment of the chain in chain order, silently skipping unreadable
fragments. -/
def read_log_file_chain (fs : FS) (filepath : String) : List String :=
  ((get_rollover_chain (fsListing fs) filepath).map (fragmentLines fs)).flatten

/-- A compiled search pattern, abstracted to its per-line matcher
(`pattern.search(line)` truthiness). -/
abbrev PatternM := String → Bool

/-- The engine-relevant state of a `LogPanel`: the tracked file, the
line buffer, the active highlight patterns, the rollover chain known
from the last scan, and the lines written into the `RichLog` widget
(`display`), which a full reload rebuilds (`rl.clear()` plus writes)
and an append-only reload merely extends. -/
structure LogPanelState where
  filepath : Option String
  lines : List String
  highlights : List PatternM
  known_chain : List String
  display : List String

/-- Model of `LogPanel.reload(append_only)`. -/
def reload (fs : FS) (st : LogPanelState) (append_only : Bool) : LogPanelState :=
  match st.filepath with
  | none => st
  | some fp =>
    let new_lines := read_log_file_chain fs fp
    if append_only && !st.lines.isEmpty then
      { st with
        lines := new_lines
        display := st.display ++ new_lines.drop st.lines.length }
    else
      { st with lines := new_lines, display := new_lines }

/-- Python `set(a) != set(b)` is `sameSet a b = false`. -/
def sameSet (a b : List String) : Bool :=
  a.all (fun x => b.contains x) && b.all (fun x => a.contains x)

/-- Model of `LogPanel.check_for_new_rollovers()`: re-scan the chain and
perform a full reload when its file set changed. -/
def check_for_new_rollovers (fs : FS) (st : LogPanelState) : LogPanelState :=
  match st.filepath with
  | none => st
  | some fp =>
    let current_chain := get_rollover_chain (fsListing fs) fp
    if sameSet current_chain st.known_chain then st
    else reload fs { st with known_chain := current_chain } false

/-- Model of `LogPanel.apply_highlights(highlights)`. -/
def apply_highlights (fs : FS) (hl : List PatternM) (p : LogPanelState) :
    LogPanelState :=
  reload fs { p with highlights := hl } false

/-- Model of `LogPanel.search_lines(pattern)`. -/
def search_lines (pat : PatternM) (p : LogPanelState) : List (Nat × String) :=
  p.lines.enum.filter (fun il => pat il.2)

/-! ### Timestamp alignment (`LogPanel.scroll_to_timestamp`) -/

/-- Python `diff < best_diff` where `best_diff` starts at
`float('inf')` (represented by `none`). -/
def ltInf (d : Nat) : Option Nat → Bool
  | none => true
  | some b => decide (d < b)

/-- The scan loop of `scroll_to_timestamp`: `best` is the best index so
far, `bestDiff` the tracked minimum (`none` standing for the initial
`float('inf')`), `i` the index of the head of `rest`; differences are
absolute, in microseconds.  The early `break` returns the just-updated
best index. -/
def scrollGo (year : Nat) (ts : Int) (tol : Nat) :
    List String → Nat → Nat → Option Nat → Nat
  | [], _, best, _ => best
  | l :: rest, i, best, bestDiff =>
    match extract_timestamp year l with
    | none => scrollGo year ts tol rest (i + 1) best bestDiff
    | some lt =>
      let diff := (lt - ts).natAbs
      if ltInf diff bestDiff then
        if diff < tol then i
        else scrollGo year ts tol rest (i + 1) i (some diff)
      else scrollGo year ts tol rest (i + 1) best bestDiff

/-- The same scan with the early `break` removed: a pure running-minimum
fold.  On inputs where no line is within tolerance the two loops agree,
which is how the minimum-tracking behaviour of `scrollGo` is analysed. -/
def noexitGo (year : Nat) (ts : Int) :
    List String → Nat → Nat → Option Nat → Nat
  | [], _, best, _ => best
  | l :: rest, i, best, bestDiff =>
    match extract_timestamp year l with
    | none => noexitGo year ts rest (i + 1) best bestDiff
    | some lt =>
      let diff := (lt - ts).natAbs
      if ltInf diff bestDiff then noexitGo year ts rest (i + 1) i (some diff)
      else noexitGo year ts rest (i + 1) best bestDiff

/-- Model of `LogPanel.scroll_to_timestamp(ts, tolerance)`, returning
the line index handed to `scroll_to_line`.  The source default
`tolerance = 2.0` seconds is `tol = 2000000` microseconds. -/
def scroll_to_timestamp (year : Nat) (ts : Int) (tol : Nat)
    (lines : List String) : Nat :=
  scrollGo year ts tol lines 0 0 none

/-- Decidable form of "this line carries a timestamp within tolerance of
the reference". -/
def line_within (year : Nat) (ts : Int) (tol : Nat) (l : String) : Bool :=
  match extract_timestamp year l with
  | some t => decide ((t - ts).natAbs < tol)
  | none => false

/-! ### The application search state (`LogViperApp.on_search`)

Compilation of a user regex is abstracted to an injected
`compile : String → Except String PatternM` (case-insensitive
compilation succeeding with a line matcher, or `re.error` with its
message); scroll positions are widget-internal and not part of the
engine state. -/

/-- Model of `str.strip()` (ASCII whitespace). -/
def pyStrip (s : String) : String :=
  String.mk
    (((s.data.dropWhile Char.isWhitespace).reverse.dropWhile
      Char.isWhitespace).reverse)

/-- The search-relevant state of `LogViperApp`. -/
structure AppState where
  panels : List LogPanelState
  highlights : List PatternM
  search_matches : List (Nat × Nat)
  match_cursor : Int
  status : String
  search_input : String

/-- Model of `LogViperApp._jump_to_match(cursor)` (the scroll itself is
widget-internal; the status line is engine-visible output). -/
def jump_to_match (cursor : Nat) (st : AppState) : AppState :=
  if st.search_matches.isEmpty || st.search_matches.length ≤ cursor then st
  else
    { st with
      status := "Match " ++ toString (cursor + 1) ++ "/"
        ++ toString st.search_matches.length }

/-- Model of `LogViperApp.action_clear_search()`. -/
def action_clear_search (fs : FS) (st : AppState) : AppState :=
  { st with
    highlights := []
    search_matches := []
    match_cursor := -1
    panels := st.panels.map (fun p =>
      let p2 : LogPanelState := { p with highlights := [] }
      if p2.filepath.isSome then reload fs p2 false else p2)
    status := ""
    search_input := "" }

/-- Model of `LogViperApp.on_search(event)` for an input with value
`value`: strip, clear on empty, report `re.error` as a status message
and return with the engine state untouched, otherwise install the new
highlight, re-render every panel, and collect the cross-panel match
list in panel order then line order. -/
def on_search (compile : String → Except String PatternM) (fs : FS)
    (value : String) (st : AppState) : AppState :=
  let query := pyStrip value
  if query = "" then action_clear_search fs st
  else
    match compile query with
    | .error e => { st with status := "Bad regex: " ++ e }
    | .ok pattern =>
      let hl := [pattern]
      let panels := st.panels.map (fun p => apply_highlights fs hl p)
      let found := panels.enum.flatMap (fun ip =>
        (search_lines pattern ip.2).map (fun jl => (ip.1, jl.1)))
      let loaded := (panels.filter (fun p => p.filepath.isSome)).length
      let st1 : AppState :=
        { st with
          panels := panels
          highlights := hl
          search_matches := found
          match_cursor := if found.isEmpty then -1 else 0
          status :=
            if found.isEmpty then "No matches"
            else toString found.length ++ " matches across "
              ++ toString loaded ++ " panel(s)" }
      if found.isEmpty then st1 else jump_to_match 0 st1

/-! ### Relations used by the invariants -/

/-- The second filesystem has the same directory entries in the same
enumeration order, every fragment readable before stays readable with
its old lines as a prefix (append-only growth), and unreadable
fragments stay unreadable. -/
def fsExtends (fs fs2 : FS) : Prop :=
  List.Forall₂ (fun e e2 => e.1 = e2.1 ∧
    ((e.2 = none ∧ e2.2 = none) ∨
      ∃ c d, e.2 = some c ∧ e2.2 = some (c ++ d))) fs fs2

/-! ### Concrete scenario inputs used by the closed theorems -/

/-- Ten lines known before the scenarios start. -/
def tenLines : List String :=
  ["l1", "l2", "l3", "l4", "l5", "l6", "l7", "l8", "l9", "l10"]

/-- A panel tracking `app.log` with the ten lines loaded. -/
def stTen : LogPanelState :=
  ⟨some "app.log", tenLines, [], ["app.log"], tenLines⟩

/-- The filesystem the ten lines were loaded from. -/
def fsTen : FS := [("app.log", some tenLines)]

/-- After rotation: `app.log` was renamed to `app.log.1` and a fresh
`app.log` with one new line was created. -/
def fsRotated : FS :=
  [("app.log", some ["new1"]), ("app.log.1", some tenLines)]

/-- After three lines were appended to the live fragment. -/
def fsThirteen : FS := [("app.log", some (tenLines ++ ["m1", "m2", "m3"]))]

/-- The tracked file exists in the listing but can no longer be opened. -/
def fsUnreadable : FS := [("app.log", none)]

/-- A panel whose buffer is empty (e.g. freshly attached). -/
def stEmptyBuf : LogPanelState := ⟨some "app.log", [], [], ["app.log"], []⟩

/-- An application state with one loaded panel and a live search
session. -/
def stApp : AppState :=
  ⟨[stTen], [fun l => l = "l3"], [(0, 2)], 0, "1 matches across 1 panel(s)", "l3"⟩

/-- A compiler that rejects every pattern, standing for `re.compile`
raising `re.error` on a syntactically invalid regex. -/
def compileReject : String → Except String PatternM :=
  fun _ => .error "missing ), unterminated subpattern at position 0"

/-- Two epoch-stamped lines five seconds apart, for the alignment
scenarios. -/
def linesEpoch : List String := ["1700000000 a", "1700000005 b"]

/-! ## Helper lemmas about `reload` -/

theorem reload_filepath (fs : FS) (st : LogPanelState) (ao : Bool) :
    (reload fs st ao).filepath = st.filepath := by
  obtain ⟨fp, ln, hl, kc, dp⟩ := st
  cases fp
  · rfl
  · unfold reload
    dsimp only
    split <;> rfl

theorem reload_lines_eq (fs : FS) (st : LogPanelState) (ao : Bool) (fp : String)
    (h : st.filepath = some fp) :
    (reload fs st ao).lines = read_log_file_chain fs fp := by
  obtain ⟨fp0, ln, hl, kc, dp⟩ := st
  dsimp only at h
  subst h
  unfold reload
  dsimp only
  split <;> rfl

theorem fragmentLines_of_all_none (fs : FS) (f : String)
    (h : ∀ e ∈ fs, e.2 = none) : fragmentLines fs f = [] := by
  induction fs with
  | nil => rfl
  | cons e t ih =>
    have he : e.2 = none := h e (List.mem_cons_self e t)
    obtain ⟨k, v⟩ := e
    simp only at he
    subst he
    unfold fragmentLines
    simp only [List.lookup]
    cases hbeq : (f == k)
    · exact ih (fun x hx => h x (List.mem_cons_of_mem _ hx))
    · rfl

theorem fsExtends_listing {fs fs2 : FS} (h : fsExtends fs fs2) :
    fsListing fs = fsListing fs2 := by
  induction h with
  | nil => rfl
  | cons ha _ ih =>
    unfold fsListing at *
    simp only [List.map_cons]
    rw [ha.1, ih]

theorem fsExtends_fragment {fs fs2 : FS} (h : fsExtends fs fs2) (f : String) :
    ∃ d, fragmentLines fs2 f = fragmentLines fs f ++ d := by
  induction h with
  | nil => exact ⟨[], rfl⟩
  | @cons a b l1 l2 ha ht ih =>
    obtain ⟨hk, hv⟩ := ha
    obtain ⟨k, v⟩ := a
    obtain ⟨k2, v2⟩ := b
    simp only at hk hv
    subst hk
    unfold fragmentLines
    simp only [List.lookup]
    cases hbeq : (f == k)
    · exact ih
    · rcases hv with ⟨h1, h2⟩ | ⟨c, d, h1, h2⟩
      · subst h1; subst h2; exact ⟨[], rfl⟩
      · subst h1; subst h2; exact ⟨d, rfl⟩

/-! ## C1 -/

/-- C1: when the rollover chain re-derived from the base path has a
different file set than the previously known one,
`check_for_new_rollovers` performs a full (non-append) reload: the line
buffer and the displayed content are both replaced by the concatenation
of every fragment's lines in chain order, and the known chain is
updated. -/
theorem check_for_new_rollovers_full_reload (fs : FS) (st : LogPanelState)
    (fp : String) (hfp : st.filepath = some fp)
    (hch : sameSet (get_rollover_chain (fsListing fs) fp) st.known_chain = false) :
    (check_for_new_rollovers fs st).lines = read_log_file_chain fs fp ∧
    (check_for_new_rollovers fs st).display = read_log_file_chain fs fp ∧
    (check_for_new_rollovers fs st).known_chain
      = get_rollover_chain (fsListing fs) fp := by
  obtain ⟨fp0, ln, hl, kc, dp⟩ := st
  simp only at hfp hch
  subst hfp
  unfold check_for_new_rollovers
  simp only [hch, Bool.false_eq_true, if_false, reload]
  exact ⟨rfl, rfl, rfl⟩

/-- C1 witness: the rotation scenario — ten known lines, the base file
renamed to `app.log.1`, a fresh `app.log` created — produces a buffer
equal to the old ten lines followed by the fresh base file's content. -/
theorem check_for_new_rollovers_full_reload_witness :
    (check_for_new_rollovers fsRotated stTen).lines = tenLines ++ ["new1"] := by
  exact (check_for_new_rollovers_full_reload fsRotated stTen "app.log" rfl
    (by decide)).1.trans (by decide)

/-! ## C4 -/

/-- C4: with the chain's file set unchanged and only the live (last)
fragment grown by appended lines, `reload(append_only := true)` keeps
the previously known lines in place and appends exactly the suffix of
the newly read list beyond the previously known length, both in the
buffer and in the displayed delta. -/
theorem reload_append_only_suffix (fs fs2 : FS) (st : LogPanelState)
    (fp live : String) (front delta : List String)
    (hfp : st.filepath = some fp)
    (hcons : st.lines = read_log_file_chain fs fp)
    (hne : st.lines ≠ [])
    (hlist : fsListing fs2 = fsListing fs)
    (hchain : get_rollover_chain (fsListing fs) fp = front ++ [live])
    (hfront : ∀ f ∈ front, fragmentLines fs2 f = fragmentLines fs f)
    (hlive : fragmentLines fs2 live = fragmentLines fs live ++ delta) :
    (reload fs2 st true).lines = st.lines ++ delta ∧
    (reload fs2 st true).display = st.display ++ delta := by
  obtain ⟨fp0, ln, hl, kc, dp⟩ := st
  dsimp only at hfp hcons hne ⊢
  subst hfp
  have hread : read_log_file_chain fs2 fp = ln ++ delta := by
    rw [hcons]
    unfold read_log_file_chain
    rw [hlist, hchain]
    simp only [List.map_append, List.map_cons, List.map_nil,
      List.flatten_append, List.flatten_cons, List.flatten_nil,
      List.append_nil]
    rw [List.map_congr_left hfront, hlive, List.append_assoc]
  have hempty : ln.isEmpty = false := by
    cases hl2 : ln
    · exact absurd hl2 hne
    · rfl
  unfold reload
  dsimp only
  simp only [hempty, Bool.not_false, Bool.true_and, if_true]
  exact ⟨hread, by rw [hread, List.drop_left]⟩

/-- C4 witness: ten known lines, three lines appended to the live
fragment, `reload(append_only := true)`: the delta is exactly those
three lines and the buffer length becomes thirteen. -/
theorem reload_append_only_suffix_witness :
    (reload fsThirteen stTen true).lines = tenLines ++ ["m1", "m2", "m3"] ∧
    (reload fsThirteen stTen true).display = tenLines ++ ["m1", "m2", "m3"] ∧
    (reload fsThirteen stTen true).lines.length = 13 := by
  have h := reload_append_only_suffix fsTen fsThirteen stTen "app.log" "app.log"
    [] ["m1", "m2", "m3"] rfl (by decide) (by decide) (by decide) (by decide)
    (by simp) (by decide)
  exact ⟨h.1, h.2, by rw [h.1]; decide⟩

/-! ## C5 -/

/-- C5 counterexample: a panel holding ten lines whose only fragment
becomes unreadable; reload yields an empty buffer instead of keeping
the last-known-good ten lines, refuting "after any I/O failure during
reload the source keeps its last-known-good line buffer". -/
theorem reload_drops_stale_buffer_cex :
    (reload fsUnreadable stTen false).lines = [] ∧ stTen.lines ≠ [] := by
  exact ⟨by decide, by decide⟩

/-- C5 (amended): reload never fails and swallows per-fragment I/O
errors, but it always replaces the buffer with the concatenation of the
fragments that could be read; in particular a source whose fragments
are all unreadable yields an empty buffer. -/
theorem reload_skips_unreadable (fs : FS) (st : LogPanelState) (fp : String)
    (ao : Bool) (hfp : st.filepath = some fp) :
    (reload fs st ao).lines = read_log_file_chain fs fp ∧
    ((∀ e ∈ fs, e.2 = none) → (reload fs st ao).lines = []) := by
  refine ⟨reload_lines_eq fs st ao fp hfp, fun hall => ?_⟩
  rw [reload_lines_eq fs st ao fp hfp]
  unfold read_log_file_chain
  rw [List.flatten_eq_nil_iff]
  intro l hl
  rw [List.mem_map] at hl
  obtain ⟨f, _, hf⟩ := hl
  rw [← hf]
  exact fragmentLines_of_all_none fs f hall

/-- C5 witness: the all-unreadable scenario evaluated concretely. -/
theorem reload_skips_unreadable_witness :
    (reload fsUnreadable stTen false).lines = [] := by
  exact (reload_skips_unreadable fsUnreadable stTen "app.log" false rfl).2
    (by decide)

/-! ## C6 -/

/-- C6: across two consecutive reloads with the chain's file set
unchanged and fragments growing only by appended lines, the buffer
length is monotonically non-decreasing. -/
theorem reload_length_monotone (fs fs2 : FS) (st : LogPanelState)
    (ao1 ao2 : Bool) (hext : fsExtends fs fs2) :
    (reload fs st ao1).lines.length
      ≤ (reload fs2 (reload fs st ao1) ao2).lines.length := by
  cases hfp : st.filepath with
  | none =>
    have h1 : reload fs st ao1 = st := by unfold reload; rw [hfp]
    rw [h1]
    have h2 : reload fs2 st ao2 = st := by unfold reload; rw [hfp]
    rw [h2]
  | some fp =>
    have hfp2 : (reload fs st ao1).filepath = some fp := by
      rw [reload_filepath, hfp]
    rw [reload_lines_eq fs st ao1 fp hfp,
      reload_lines_eq fs2 (reload fs st ao1) ao2 fp hfp2]
    unfold read_log_file_chain
    rw [← fsExtends_listing hext]
    rw [List.length_flatten, List.length_flatten, List.map_map, List.map_map]
    apply List.sum_le_sum
    intro f _
    obtain ⟨d, hd⟩ := fsExtends_fragment hext f
    simp only [Function.comp_apply, hd, List.length_append]
    exact Nat.le_add_right _ _

/-- C6 witness: ten lines, then three more appended to the live
fragment; the buffer length does not decrease across the two reloads. -/
theorem reload_length_monotone_witness :
    (reload fsTen stTen false).lines.length
      ≤ (reload fsThirteen (reload fsTen stTen false) true).lines.length := by
  exact reload_length_monotone fsTen fsThirteen stTen false true
    (List.Forall₂.cons
      ⟨rfl, Or.inr ⟨tenLines, ["m1", "m2", "m3"], rfl, rfl⟩⟩
      List.Forall₂.nil)

/-! ## C10 -/

/-- C10: calling `reload(append_only := true)` on a panel whose line
buffer is empty behaves exactly as a full refresh: the display is
rebuilt from scratch and the written delta is the entire newly read
line list. -/
theorem reload_append_only_empty_is_full (fs : FS) (st : LogPanelState)
    (h : st.lines = []) : reload fs st true = reload fs st false := by
  unfold reload
  cases hfp : st.filepath
  · rfl
  · rw [h]
    rfl

/-- C10 witness: the empty-buffer panel evaluated concretely. -/
theorem reload_append_only_empty_is_full_witness :
    reload fsThirteen stEmptyBuf true = reload fsThirteen stEmptyBuf false := by
  exact reload_append_only_empty_is_full fsThirteen stEmptyBuf rfl

/-! ## C7 -/

/-- C7: a syntactically invalid search pattern (one `re.compile`
rejects) is reported as a distinct "Bad regex" error and leaves the
engine state unchanged: no session is created, and the previous
session's match list, cursor, highlight set, and panels are exactly as
before the call. -/
theorem on_search_invalid_pattern (compile : String → Except String PatternM)
    (fs : FS) (value : String) (st : AppState) (e : String)
    (hq : pyStrip value ≠ "")
    (hc : compile (pyStrip value) = Except.error e) :
    on_search compile fs value st = { st with status := "Bad regex: " ++ e } ∧
    (on_search compile fs value st).highlights = st.highlights ∧
    (on_search compile fs value st).search_matches = st.search_matches ∧
    (on_search compile fs value st).match_cursor = st.match_cursor ∧
    (on_search compile fs value st).panels = st.panels := by
  have hmain : on_search compile fs value st
      = { st with status := "Bad regex: " ++ e } := by
    unfold on_search
    rw [if_neg hq, hc]
  exact ⟨hmain, by rw [hmain], by rw [hmain], by rw [hmain], by rw [hmain]⟩

/-- C7 witness: an unbalanced-parenthesis pattern against a state with
a live session; the session survives untouched. -/
theorem on_search_invalid_pattern_witness :
    (on_search compileReject fsTen "(" stApp).search_matches = [(0, 2)] ∧
    (on_search compileReject fsTen "(" stApp).match_cursor = 0 ∧
    (on_search compileReject fsTen "(" stApp).status
      = "Bad regex: missing ), unterminated subpattern at position 0" := by
  have h := on_search_invalid_pattern compileReject fsTen "(" stApp
    "missing ), unterminated subpattern at position 0" (by decide) rfl
  exact ⟨h.2.2.1, h.2.2.2.1, by rw [h.1]; decide⟩

/-! ## C2 -/

theorem extractGo_eq_head_filterMap (year : Nat) (cs : List Char)
    (rules : List ((List Char → Option (List Char)) × TsFmt)) :
    extractGo year cs rules
      = (rules.filterMap
          (fun pf => (pf.1 cs).bind (apply_fmt year pf.2))).head? := by
  induction rules with
  | nil => rfl
  | cons pf rest ih =>
    unfold extractGo
    cases hm : pf.1 cs with
    | none => simp [List.filterMap_cons, hm, ih]
    | some cap =>
      cases ha : apply_fmt year pf.2 cap with
      | none => simp [List.filterMap_cons, hm, ha, ih]
      | some v => simp [List.filterMap_cons, hm, ha]

/-- C2: `extract_timestamp` tries the rules of `TS_PATTERNS` in their
fixed priority order and returns the value of the first rule whose
regex matches and whose matched substring parses; a matching rule whose
substring fails to parse (e.g. the invalid calendar date `2024-13-45`)
falls through to later rules; formats without a year component are
parsed as the injected current calendar year; and the result is absent
exactly when every rule either fails to match or fails to parse. -/
theorem extract_timestamp_rule_priority :
    (∀ year line,
      extract_timestamp year line = extract_spec_first_success year line ∧
      (extract_timestamp year line = none ↔
        ∀ pf ∈ TS_PATTERNS, (pf.1 line.data).bind (apply_fmt year pf.2) = none)) ∧
    extract_timestamp 2024 "2024-13-45 10:10:10"
      = extract_timestamp 2024 "10:10:10" ∧
    extract_timestamp 2024 "Mar 15 12:00:00"
      = some (dtTimestampMicro ⟨2024, 3, 15, 12, 0, 0, 0⟩) ∧
    extract_timestamp 2025 "Mar 15 12:00:00"
      = some (dtTimestampMicro ⟨2025, 3, 15, 12, 0, 0, 0⟩) ∧
    extract_timestamp 2024 "no timestamp here" = none := by
  refine ⟨fun year line => ⟨extractGo_eq_head_filterMap year line.data TS_PATTERNS, ?_⟩,
    by decide, by decide, by decide, by decide⟩
  rw [extract_timestamp, extractGo_eq_head_filterMap, List.head?_eq_none_iff,
    List.filterMap_eq_nil_iff]

/-! ## C9 -/

/-- C9 (wall-clock dependence made concrete): the value
`extract_timestamp` produces for a no-year format genuinely depends on
the ambient `datetime.now().year` that the Python code reads inside the
extractor — the same line yields different timestamps under different
wall-clock years, so the current time is a semantically load-bearing
ambient input, not an injected parameter as the specification
requires. -/
theorem extract_timestamp_wall_clock_dependence :
    extract_timestamp 2024 "Mar 15 12:00:00"
      ≠ extract_timestamp 2025 "Mar 15 12:00:00" := by decide

/-! ## C3 -/

theorem insertByRank_perm (x : Nat × String) (l : List (Nat × String)) :
    (insertByRank x l).Perm (x :: l) := by
  induction l with
  | nil => exact List.Perm.refl _
  | cons y ys ih =>
    unfold insertByRank
    by_cases hc : y.1 ≤ x.1
    · rw [if_pos hc]
    · rw [if_neg hc]
      exact (List.Perm.cons y ih).trans (List.Perm.swap x y ys)

theorem sortByRankDesc_perm (l : List (Nat × String)) :
    (sortByRankDesc l).Perm l := by
  induction l with
  | nil => exact List.Perm.refl _
  | cons x xs ih =>
    exact (insertByRank_perm x (sortByRankDesc xs)).trans (List.Perm.cons x ih)

theorem insertByRank_pairwise (x : Nat × String) (l : List (Nat × String))
    (h : l.Pairwise (fun a b => b.1 ≤ a.1)) :
    (insertByRank x l).Pairwise (fun a b => b.1 ≤ a.1) := by
  induction l with
  | nil => simp [insertByRank]
  | cons y ys ih =>
    rcases List.pairwise_cons.mp h with ⟨hy, hys⟩
    unfold insertByRank
    by_cases hc : y.1 ≤ x.1
    · rw [if_pos hc]
      refine List.pairwise_cons.mpr ⟨?_, h⟩
      intro z hz
      rcases List.mem_cons.mp hz with rfl | hz2
      · exact hc
      · exact Nat.le_trans (hy z hz2) hc
    · rw [if_neg hc]
      refine List.pairwise_cons.mpr ⟨?_, ih hys⟩
      intro z hz
      have hz2 : z ∈ x :: ys := (insertByRank_perm x ys).mem_iff.mp hz
      rcases List.mem_cons.mp hz2 with rfl | hz3
      · exact Nat.le_of_lt (Nat.lt_of_not_le hc)
      · exact hy z hz3

theorem sortByRankDesc_pairwise (l : List (Nat × String)) :
    (sortByRankDesc l).Pairwise (fun a b => b.1 ≤ a.1) := by
  induction l with
  | nil => exact List.Pairwise.nil
  | cons x xs ih => exact insertByRank_pairwise x _ ih

theorem chainEntry_eq_some {base f : String} {p : Nat × String}
    (h : chainEntry base f = some p) :
    base.data.isPrefixOf f.data = true ∧ p = (rank_of base f, f) ∧
      (f = base ∨ (trailing_rank f).isSome = true) := by
  unfold chainEntry at h
  by_cases hpre : base.data.isPrefixOf f.data = true
  · rw [if_pos hpre] at h
    by_cases hfb : f = base
    · rw [if_pos hfb] at h
      refine ⟨hpre, ?_, Or.inl hfb⟩
      rw [rank_of, if_pos hfb]
      exact (Option.some.inj h).symm
    · rw [if_neg hfb] at h
      cases htr : trailing_rank f with
      | none => rw [htr] at h; exact absurd h (by simp)
      | some n =>
        rw [htr] at h
        refine ⟨hpre, ?_, Or.inr rfl⟩
        rw [rank_of, if_neg hfb, htr]
        exact (Option.some.inj h).symm
  · rw [if_neg hpre] at h
    exact absurd h (by simp)

theorem chainEntry_eq_some_of {base f : String}
    (hpre : base.data.isPrefixOf f.data = true)
    (hcls : f = base ∨ (trailing_rank f).isSome = true) :
    chainEntry base f = some (rank_of base f, f) := by
  unfold chainEntry rank_of
  rw [if_pos hpre]
  by_cases hfb : f = base
  · rw [if_pos hfb, if_pos hfb]
  · rw [if_neg hfb, if_neg hfb]
    rcases hcls with h | h
    · exact absurd h hfb
    · cases htr : trailing_rank f with
      | none => rw [htr] at h; simp at h
      | some n => rfl

theorem mem_get_rollover_chain (listing : List String) (filepath f : String) :
    f ∈ get_rollover_chain listing filepath ↔
      f ∈ listing ∧
        (rollover_base filepath).data.isPrefixOf f.data = true ∧
        (f = rollover_base filepath ∨ (trailing_rank f).isSome = true) := by
  unfold get_rollover_chain
  constructor
  · intro hf
    rw [List.mem_map] at hf
    obtain ⟨p, hp, hpf⟩ := hf
    have hp2 : p ∈ listing.filterMap
        (fun g => chainEntry (rollover_base filepath) g) :=
      (sortByRankDesc_perm _).mem_iff.mp hp
    rw [List.mem_filterMap] at hp2
    obtain ⟨g, hg, hge⟩ := hp2
    obtain ⟨h1, h2, h3⟩ := chainEntry_eq_some hge
    rw [h2] at hpf
    dsimp only at hpf
    subst hpf
    exact ⟨hg, h1, h3⟩
  · rintro ⟨hmem, hpre, hcls⟩
    rw [List.mem_map]
    refine ⟨(rank_of (rollover_base filepath) f, f), ?_, rfl⟩
    apply (sortByRankDesc_perm _).mem_iff.mpr
    rw [List.mem_filterMap]
    exact ⟨f, hmem, chainEntry_eq_some_of hpre hcls⟩

theorem get_rollover_chain_sorted (listing : List String) (filepath : String) :
    (get_rollover_chain listing filepath).Pairwise
      (fun a b => rank_of (rollover_base filepath) b
        ≤ rank_of (rollover_base filepath) a) := by
  unfold get_rollover_chain
  rw [List.pairwise_map]
  have hall : ∀ p ∈ sortByRankDesc
      (listing.filterMap (fun g => chainEntry (rollover_base filepath) g)),
      p.1 = rank_of (rollover_base filepath) p.2 := by
    intro p hp
    have hp2 := (sortByRankDesc_perm _).mem_iff.mp hp
    rw [List.mem_filterMap] at hp2
    obtain ⟨g, _, hge⟩ := hp2
    obtain ⟨_, h2, _⟩ := chainEntry_eq_some hge
    rw [h2]
  exact (sortByRankDesc_pairwise _).imp_of_mem
    (fun ha hb hr => by rw [← hall _ ha, ← hall _ hb]; exact hr)

theorem filterMap_chainEntry_eq (base : String) (l : List String) :
    l.filterMap (fun f => chainEntry base f)
      = (l.filter (fun f => base.data.isPrefixOf f.data)).filterMap
          (fun f =>
            if f = base then some ((0 : Nat), f)
            else
              match trailing_rank f with
              | some n => some (n, f)
              | none => none) := by
  induction l with
  | nil => rfl
  | cons a t ih =>
    rw [List.filterMap_cons, List.filter_cons]
    by_cases hp : base.data.isPrefixOf a.data = true
    · rw [if_pos hp, List.filterMap_cons]
      have hce : chainEntry base a
          = (if a = base then some ((0 : Nat), a)
             else
               match trailing_rank a with
               | some n => some (n, a)
               | none => none) := by
        unfold chainEntry
        rw [if_pos hp]
      rw [hce, ih]
    · have hce : chainEntry base a = none := by
        unfold chainEntry
        rw [if_neg hp]
      rw [if_neg hp, hce, ih]

theorem get_rollover_chain_single (listing : List String) (filepath : String)
    (h : listing.filter
        (fun f => (rollover_base filepath).data.isPrefixOf f.data)
        = [rollover_base filepath]) :
    get_rollover_chain listing filepath = [rollover_base filepath] := by
  unfold get_rollover_chain
  rw [filterMap_chainEntry_eq, h]
  simp [List.filterMap_cons, sortByRankDesc, insertByRank]

/-- C3 counterexample: a sibling that merely shares the prefix and ends
in a dot-number suffix — `app.log.bak.2` — is *included* in the chain
with rank 2, although the claim says such files are excluded because
they are not of the exact form `<prefix>.<N>`. -/
theorem get_rollover_chain_prefix_sharing_cex :
    get_rollover_chain ["app.log", "app.log.bak.2"] "app.log"
      = ["app.log.bak.2", "app.log"] := by decide

/-- C3 (amended): the chain contains exactly the listed siblings that
share the normalized base as a string prefix and either equal the base
or end in a dot-digit suffix `.N` (any such sibling, including e.g.
`<base>.bak.2`, with `N ≥ 0` allowed); it is ordered by non-increasing
rank, where the base file ranks 0 and any other sibling ranks by its
trailing number (ties keep directory enumeration order); and when the
base is the only prefix-sharing entry the chain is the single base
path. -/
theorem get_rollover_chain_characterization (listing : List String)
    (filepath : String) :
    (∀ f, f ∈ get_rollover_chain listing filepath ↔
      f ∈ listing ∧
        (rollover_base filepath).data.isPrefixOf f.data = true ∧
        (f = rollover_base filepath ∨ (trailing_rank f).isSome = true)) ∧
    (get_rollover_chain listing filepath).Pairwise
      (fun a b => rank_of (rollover_base filepath) b
        ≤ rank_of (rollover_base filepath) a) ∧
    (listing.filter
        (fun f => (rollover_base filepath).data.isPrefixOf f.data)
        = [rollover_base filepath] →
      get_rollover_chain listing filepath = [rollover_base filepath]) :=
  ⟨fun f => mem_get_rollover_chain listing filepath f,
    get_rollover_chain_sorted listing filepath,
    get_rollover_chain_single listing filepath⟩

/-- C3 witness: a directory holding only the base file yields the
single-element chain. -/
theorem get_rollover_chain_characterization_witness :
    get_rollover_chain ["app.log"] "app.log" = ["app.log"] := by
  exact (get_rollover_chain_characterization ["app.log"] "app.log").2.2 (by decide)

/-! ## C8 -/

theorem scrollGo_all_none (year : Nat) (ts : Int) (tol : Nat)
    (rest : List String) :
    ∀ i best bd, (∀ l ∈ rest, extract_timestamp year l = none) →
      scrollGo year ts tol rest i best bd = best := by
  induction rest with
  | nil => intro i best bd _; rfl
  | cons l rest ih =>
    intro i best bd hall
    unfold scrollGo
    rw [hall l (List.mem_cons_self l rest)]
    exact ih (i + 1) best bd (fun x hx => hall x (List.mem_cons_of_mem _ hx))

theorem scrollGo_eq_noexitGo (year : Nat) (ts : Int) (tol : Nat)
    (rest : List String) :
    ∀ i best bd, (∀ l ∈ rest, line_within year ts tol l = false) →
      scrollGo year ts tol rest i best bd = noexitGo year ts rest i best bd := by
  induction rest with
  | nil => intro i best bd _; rfl
  | cons l rest ih =>
    intro i best bd hall
    have hrest : ∀ x ∈ rest, line_within year ts tol x = false :=
      fun x hx => hall x (List.mem_cons_of_mem _ hx)
    have hl := hall l (List.mem_cons_self l rest)
    unfold scrollGo noexitGo
    cases hx : extract_timestamp year l with
    | none => exact ih (i + 1) best bd hrest
    | some lt =>
      dsimp only
      have hnl : ¬((lt - ts).natAbs < tol) := by
        unfold line_within at hl
        rw [hx] at hl
        exact of_decide_eq_false hl
      by_cases hc : ltInf ((lt - ts).natAbs) bd = true
      · rw [if_pos hc, if_pos hc, if_neg hnl]
        exact ih (i + 1) i (some ((lt - ts).natAbs)) hrest
      · rw [if_neg hc, if_neg hc]
        exact ih (i + 1) best bd hrest

theorem scrollGo_break (year : Nat) (ts : Int) (tol : Nat)
    (pre : List String) :
    ∀ i best bd, (∀ b, bd = some b → tol ≤ b) →
      (∀ l ∈ pre, line_within year ts tol l = false) →
      ∀ mid post, line_within year ts tol mid = true →
      scrollGo year ts tol (pre ++ mid :: post) i best bd = i + pre.length := by
  induction pre with
  | nil =>
    intro i best bd hbd _ mid post hmid
    obtain ⟨t, hx, hlt⟩ : ∃ t, extract_timestamp year mid = some t ∧
        (t - ts).natAbs < tol := by
      unfold line_within at hmid
      cases hx : extract_timestamp year mid with
      | none => rw [hx] at hmid; exact absurd hmid (by simp)
      | some t => rw [hx] at hmid; exact ⟨t, rfl, of_decide_eq_true hmid⟩
    have hc : ltInf ((t - ts).natAbs) bd = true := by
      cases bd with
      | none => rfl
      | some b => exact decide_eq_true (Nat.lt_of_lt_of_le hlt (hbd b rfl))
    show scrollGo year ts tol (mid :: post) i best bd = i + 0
    unfold scrollGo
    rw [hx]
    dsimp only
    rw [if_pos hc, if_pos hlt]
    omega
  | cons l pre ih =>
    intro i best bd hbd hpre mid post hmid
    have hl := hpre l (List.mem_cons_self l pre)
    have hpre2 : ∀ x ∈ pre, line_within year ts tol x = false :=
      fun x hx => hpre x (List.mem_cons_of_mem _ hx)
    have hlen : i + 1 + pre.length = i + (l :: pre).length := by
      simp [List.length_cons]
      omega
    show scrollGo year ts tol (l :: (pre ++ mid :: post)) i best bd
      = i + (l :: pre).length
    unfold scrollGo
    cases hx : extract_timestamp year l with
    | none =>
      rw [ih (i + 1) best bd hbd hpre2 mid post hmid]
      exact hlen
    | some lt =>
      dsimp only
      have hnl : ¬((lt - ts).natAbs < tol) := by
        unfold line_within at hl
        rw [hx] at hl
        exact of_decide_eq_false hl
      by_cases hc : ltInf ((lt - ts).natAbs) bd = true
      · rw [if_pos hc, if_neg hnl]
        rw [ih (i + 1) i (some ((lt - ts).natAbs))
          (fun b hb => by rw [← Option.some.inj hb] at *; exact Nat.le_of_not_lt hnl)
          hpre2 mid post hmid]
        exact hlen
      · rw [if_neg hc]
        rw [ih (i + 1) best bd hbd hpre2 mid post hmid]
        exact hlen

theorem noexitGo_spec (year : Nat) (ts : Int) (rest : List String) :
    ∀ i best bd,
    (noexitGo year ts rest i best bd = best ∧
      (∀ l ∈ rest, ∀ t, extract_timestamp year l = some t →
        ∃ b, bd = some b ∧ b ≤ (t - ts).natAbs))
    ∨ (∃ j t, (rest[j]?.bind (extract_timestamp year)) = some t ∧
        noexitGo year ts rest i best bd = i + j ∧
        (∀ b, bd = some b → (t - ts).natAbs < b) ∧
        (∀ l ∈ rest, ∀ u, extract_timestamp year l = some u →
          (t - ts).natAbs ≤ (u - ts).natAbs)) := by
  induction rest with
  | nil =>
    intro i best bd
    left
    exact ⟨rfl, by simp⟩
  | cons l rest ih =>
    intro i best bd
    unfold noexitGo
    cases hx : extract_timestamp year l with
    | none =>
      dsimp only
      rcases ih (i + 1) best bd with ⟨h1, h2⟩ | ⟨j, t, ht, hres, hbd, hmin⟩
      · left
        refine ⟨h1, ?_⟩
        intro x hx2 t ht
        rcases List.mem_cons.mp hx2 with rfl | hx3
        · rw [hx] at ht; exact absurd ht (by simp)
        · exact h2 x hx3 t ht
      · right
        refine ⟨j + 1, t, by simpa [List.getElem?_cons_succ] using ht,
          by rw [hres]; omega, hbd, ?_⟩
        intro x hx2 u hu
        rcases List.mem_cons.mp hx2 with rfl | hx3
        · rw [hx] at hu; exact absurd hu (by simp)
        · exact hmin x hx3 u hu
    | some lt =>
      dsimp only
      by_cases hc : ltInf ((lt - ts).natAbs) bd = true
      · rw [if_pos hc]
        rcases ih (i + 1) i (some ((lt - ts).natAbs)) with
          ⟨h1, h2⟩ | ⟨j, t, ht, hres, hbd2, hmin⟩
        · right
          refine ⟨0, lt, by simp [hx], by rw [h1]; omega, ?_, ?_⟩
          · intro b hb
            rw [hb] at hc
            exact of_decide_eq_true hc
          · intro x hx2 u hu
            rcases List.mem_cons.mp hx2 with rfl | hx3
            · rw [hx] at hu
              rw [Option.some.inj hu]
            · obtain ⟨b, hb, hble⟩ := h2 x hx3 u hu
              rw [Option.some.inj hb]
              exact hble
        · right
          have hlt2 : (t - ts).natAbs < (lt - ts).natAbs := hbd2 _ rfl
          refine ⟨j + 1, t, by simpa [List.getElem?_cons_succ] using ht,
            by rw [hres]; omega, ?_, ?_⟩
          · intro b hb
            rw [hb] at hc
            exact Nat.lt_trans hlt2 (of_decide_eq_true hc)
          · intro x hx2 u hu
            rcases List.mem_cons.mp hx2 with rfl | hx3
            · rw [hx] at hu
              rw [← Option.some.inj hu]
              exact Nat.le_of_lt hlt2
            · exact hmin x hx3 u hu
      · rw [if_neg hc]
        obtain ⟨b0, hb0, hble0⟩ : ∃ b0, bd = some b0 ∧ b0 ≤ (lt - ts).natAbs := by
          cases hbd0 : bd with
          | none => rw [hbd0] at hc; exact absurd rfl hc
          | some b =>
            rw [hbd0] at hc
            exact ⟨b, rfl, Nat.le_of_not_lt (fun hlt2 =>
              hc (decide_eq_true hlt2))⟩
        rcases ih (i + 1) best bd with ⟨h1, h2⟩ | ⟨j, t, ht, hres, hbd2, hmin⟩
        · left
          refine ⟨h1, ?_⟩
          intro x hx2 u hu
          rcases List.mem_cons.mp hx2 with rfl | hx3
          · rw [hx] at hu
            rw [← Option.some.inj hu]
            exact ⟨b0, hb0, hble0⟩
          · exact h2 x hx3 u hu
        · right
          refine ⟨j + 1, t, by simpa [List.getElem?_cons_succ] using ht,
            by rw [hres]; omega, hbd2, ?_⟩
          intro x hx2 u hu
          rcases List.mem_cons.mp hx2 with rfl | hx3
          · rw [hx] at hu
            rw [← Option.some.inj hu]
            exact Nat.le_trans (Nat.le_of_lt (hbd2 b0 hb0)) hble0
          · exact hmin x hx3 u hu

/-- C8: `scroll_to_timestamp` scans the lines in order tracking the
minimum absolute difference between each extractable timestamp and the
reference time; it stops at the first line whose difference is within
the tolerance window (2 seconds by default) and returns that line's
index, which at that moment is the tracked best; when no line is
within tolerance it returns an index attaining the global minimum
difference; and when no line has an extractable timestamp it returns
line index 0. -/
theorem scroll_to_timestamp_align (year : Nat) (ts : Int) (tol : Nat)
    (lines : List String) :
    ((∀ l ∈ lines, extract_timestamp year l = none) →
      scroll_to_timestamp year ts tol lines = 0) ∧
    (∀ pre mid post, lines = pre ++ mid :: post →
      (∀ l ∈ pre, line_within year ts tol l = false) →
      line_within year ts tol mid = true →
      scroll_to_timestamp year ts tol lines = pre.length) ∧
    ((∀ l ∈ lines, line_within year ts tol l = false) →
      ∀ (j : Nat) (t : Int), (lines[j]?.bind (extract_timestamp year)) = some t →
      ∃ u, (lines[scroll_to_timestamp year ts tol lines]?.bind
          (extract_timestamp year)) = some u ∧
        (u - ts).natAbs ≤ (t - ts).natAbs) := by
  refine ⟨?_, ?_, ?_⟩
  · intro h
    exact scrollGo_all_none year ts tol lines 0 0 none h
  · intro pre mid post heq hpre hmid
    unfold scroll_to_timestamp
    rw [heq]
    have h := scrollGo_break year ts tol pre 0 0 none
      (fun b hb => by exact absurd hb (by simp)) hpre mid post hmid
    rw [h]
    omega
  · intro hall j t hjt
    obtain ⟨lj, hlj, hex⟩ : ∃ lj, lines[j]? = some lj ∧
        extract_timestamp year lj = some t := by
      cases hl : lines[j]? with
      | none => rw [hl] at hjt; exact absurd hjt (by simp)
      | some x =>
        rw [hl] at hjt
        exact ⟨x, rfl, hjt⟩
    unfold scroll_to_timestamp
    rw [scrollGo_eq_noexitGo year ts tol lines 0 0 none hall]
    rcases noexitGo_spec year ts lines 0 0 none with
      ⟨_, h2⟩ | ⟨j0, t0, ht0, hres, _, hmin⟩
    · obtain ⟨b, hb, _⟩ := h2 lj (List.getElem?_mem hlj) t hex
      exact absurd hb (by simp)
    · rw [hres]
      refine ⟨t0, by simpa using ht0, ?_⟩
      exact hmin lj (List.getElem?_mem hlj) t hex

/-- C8 witness: two epoch-stamped lines five seconds apart; the first
line is four seconds from the reference (outside the 2-second window),
the second one second (inside), so the scan stops there and returns
index 1. -/
theorem scroll_to_timestamp_align_witness :
    scroll_to_timestamp 2024 1700000004000000 2000000 linesEpoch = 1 := by
  have h := (scroll_to_timestamp_align 2024 1700000004000000 2000000
    linesEpoch).2.1 ["1700000000 a"] "1700000005 b" [] (by decide) (by decide)
    (by decide)
  simpa using h

end LogViper
